import Mathlib

/-!
Shallow embedding of the editor-backend access-control and canvas-persistence
core: the MongoDB-backed models (`CanvasAccess`, `CanvasDesign`, `Comment`,
`User`) and the `CanvasController` request handlers, translated from the
TypeScript source.  Collections are modelled as lists of records; MongoDB
`findOne`/`replaceOne`/`deleteOne`/`deleteMany`/`updateOne` become the
corresponding first-match list operations.  `Date` values are modelled as
`Nat` timestamps passed in explicitly as `now`.
-/

namespace EditorBackend

/-! ## Mongo collection primitives (first-match semantics on lists) -/

/-- `replaceOne(filter, doc, upsert: true)`: replace the first record matching
`p` in place, or append `doc` when no record matches. -/
def replaceOneUpsert (p : α → Bool) (doc : α) : List α → List α
  | [] => [doc]
  | x :: xs => if p x then doc :: xs else x :: replaceOneUpsert p doc xs

/-- `updateOne(filter, {$set})` without upsert: modify the first matching
record, or do nothing when no record matches. -/
def updateFirst (p : α → Bool) (f : α → α) : List α → List α
  | [] => []
  | x :: xs => if p x then f x :: xs else x :: updateFirst p f xs

/-! ## Roles (`src/models/CanvasAccess.ts`) -/

inductive Role
  | owner
  | editor
  | viewer
deriving DecidableEq

/-- `roleHierarchy` from `hasAccess`: `owner(3) > editor(2) > viewer(1)`. -/
def roleHierarchy : Role → Nat
  | .owner => 3
  | .editor => 2
  | .viewer => 1

/-! ## Access grants (`src/models/CanvasAccess.ts`) -/

/-- A `canvas_access` document.  `mongoId` embeds the Mongo `_id` field,
which `grantAccess` always sets to `canvasId ++ "-" ++ userId`. -/
structure CanvasAccess where
  mongoId : String
  canvasId : String
  userId : String
  role : Role
  grantedBy : String
  grantedAt : Nat
  expiresAt : Option Nat
deriving DecidableEq

/-- The `_id` string `grantAccess` computes for a `(canvasId, userId)` pair. -/
def accessId (canvasId userId : String) : String :=
  canvasId ++ "-" ++ userId

/-- The `findOne({canvasId, userId})` lookup used by `hasAccess`. -/
def findGrant (accesses : List CanvasAccess) (canvasId userId : String) :
    Option CanvasAccess :=
  accesses.find? (fun a => a.canvasId == canvasId && a.userId == userId)

/-- `CanvasAccessModel.hasAccess`: absent grant yields `false`; otherwise the
grant's role rank must meet the required role's rank.  (`expiresAt` is not
consulted, exactly as in the source.) -/
def hasAccess (accesses : List CanvasAccess) (canvasId userId : String)
    (requiredRole : Role) : Bool :=
  match findGrant accesses canvasId userId with
  | none => false
  | some access => decide (roleHierarchy requiredRole ≤ roleHierarchy access.role)

/-- `CanvasAccessModel.grantAccess`: builds the grant with
`_id = canvasId-userId` and `replaceOne`-upserts it by `_id`.  Returns the
grant together with the updated collection. -/
def grantAccess (accesses : List CanvasAccess) (canvasId userId : String)
    (role : Role) (grantedBy : String) (expiresAt : Option Nat) (now : Nat) :
    CanvasAccess × List CanvasAccess :=
  let access : CanvasAccess :=
    { mongoId := accessId canvasId userId
      canvasId := canvasId
      userId := userId
      role := role
      grantedBy := grantedBy
      grantedAt := now
      expiresAt := expiresAt }
  (access, replaceOneUpsert (fun a => a.mongoId == access.mongoId) access accesses)

/-- `CanvasAccessModel.revokeAccess`: `deleteOne({canvasId, userId})`. -/
def revokeAccess (accesses : List CanvasAccess) (canvasId userId : String) :
    Bool × List CanvasAccess :=
  let p := fun (a : CanvasAccess) => a.canvasId == canvasId && a.userId == userId
  (accesses.any p, accesses.eraseP p)

/-- `CanvasAccessModel.getUserCanvases`: canvas ids of all grants held by
`userId`. -/
def getUserCanvases (accesses : List CanvasAccess) (userId : String) :
    List String :=
  (accesses.filter (fun a => a.userId == userId)).map (fun a => a.canvasId)

/-- `CanvasAccessModel.deleteCanvasAccess`: `deleteMany({canvasId})`. -/
def deleteCanvasAccess (accesses : List CanvasAccess) (canvasId : String) :
    Bool × List CanvasAccess :=
  (accesses.any (fun a => a.canvasId == canvasId),
   accesses.filter (fun a => !(a.canvasId == canvasId)))

/-! ## Canvas designs (`src/models/CanvasDesign.ts`, variant with Yjs state,
union listing and cascading delete — the model the controllers call) -/

/-- The `designData` payload.  `objects` entries are opaque to the core. -/
structure DesignData where
  version : String
  objects : List String
  background : String
  width : Option Int
  height : Option Int
deriving DecidableEq

structure CanvasMetadata where
  title : Option String
  version : String
  createdAt : Nat
  updatedAt : Nat
deriving DecidableEq

/-- `Partial<CanvasMetadata>` as supplied by callers. -/
structure PartialMetadata where
  title : Option String
  version : Option String
  createdAt : Option Nat
  updatedAt : Option Nat
deriving DecidableEq

/-- The empty partial metadata `{}` (used for `metadata || {}`). -/
def emptyPartialMetadata : PartialMetadata :=
  { title := none, version := none, createdAt := none, updatedAt := none }

/-- A `canvas_designs` document.  `yjsState` is the collaborative snapshot
blob (a byte sequence), `lastSaved` its timestamp. -/
structure CanvasDesign where
  mongoId : String
  userId : String
  designData : DesignData
  metadata : CanvasMetadata
  yjsState : Option (List Nat)
  lastSaved : Option Nat
deriving DecidableEq

/-- JavaScript `s || dflt` on an optional string: `undefined` and the empty
string are falsy. -/
def orElseStr (v : Option String) (dflt : String) : String :=
  match v with
  | none => dflt
  | some s => if s = "" then dflt else s

/-! ## Comments (`src/models/Comment.ts`) -/

/-- A `comments` document; `_id = canvasId-id` where `id` is the
client-generated comment id. -/
structure Comment where
  mongoId : String
  canvasId : String
  id : String
  authorId : String
  timestamp : Nat
  text : String
  createdAt : Nat
  updatedAt : Nat
deriving DecidableEq

/-- The caller-supplied part of a comment (`Omit<Comment, '_id' | 'canvasId'
| 'createdAt' | 'updatedAt'>`). -/
structure CommentInput where
  id : String
  authorId : String
  timestamp : Nat
  text : String
deriving DecidableEq

/-- `CommentModel.saveComment`: builds the full document (with `createdAt`
and `updatedAt` both set to `now`) and `replaceOne`-upserts it by
`_id = canvasId-comment.id`. -/
def saveComment (comments : List Comment) (canvasId : String)
    (c : CommentInput) (now : Nat) : Comment × List Comment :=
  let doc : Comment :=
    { mongoId := canvasId ++ "-" ++ c.id
      canvasId := canvasId
      id := c.id
      authorId := c.authorId
      timestamp := c.timestamp
      text := c.text
      createdAt := now
      updatedAt := now }
  (doc, replaceOneUpsert (fun x => x.mongoId == doc.mongoId) doc comments)

/-- `CommentModel.deleteCommentsByCanvasId`: `deleteMany({canvasId})`,
returning the deleted count. -/
def deleteCommentsByCanvasId (comments : List Comment) (canvasId : String) :
    Nat × List Comment :=
  ((comments.filter (fun x => x.canvasId == canvasId)).length,
   comments.filter (fun x => !(x.canvasId == canvasId)))

/-! ## The persistent state shared by the models -/

/-- The durable store: the three keyed collections plus the set of known
user ids (standing in for the `users` collection consulted by
`userModel.findById`). -/
structure DB where
  canvases : List CanvasDesign
  accesses : List CanvasAccess
  comments : List Comment
  users : List String
deriving DecidableEq

/-- `CanvasDesignModel.findById(id, userId?)`: `findOne` on `_id`, adding the
`userId` filter only when `userId` is supplied and truthy. -/
def findById (canvases : List CanvasDesign) (id : String)
    (userId : Option String) : Option CanvasDesign :=
  match userId with
  | none => canvases.find? (fun c => c.mongoId == id)
  | some u =>
    if u = "" then canvases.find? (fun c => c.mongoId == id)
    else canvases.find? (fun c => c.mongoId == id && c.userId == u)

/-- `CanvasDesignModel.save(id, userId, designData, metadata)`: builds the
replacement document (`createdAt := metadata.createdAt || now`,
`updatedAt := now`), checks existence before the upsert, `replaceOne`-upserts
by `_id`, and grants owner access to `userId` when the canvas was new. -/
def canvasSave (db : DB) (id userId : String) (designData : DesignData)
    (metadata : PartialMetadata) (now : Nat) : CanvasDesign × DB :=
  let canvasDesign : CanvasDesign :=
    { mongoId := id
      userId := userId
      designData := designData
      metadata :=
        { version := orElseStr metadata.version "1.0"
          createdAt := metadata.createdAt.getD now
          updatedAt := now
          title := metadata.title }
      yjsState := none
      lastSaved := none }
  let isNewCanvas := (db.canvases.find? (fun c => c.mongoId == id)).isNone
  let canvases1 :=
    replaceOneUpsert (fun c => c.mongoId == id) canvasDesign db.canvases
  let accesses1 :=
    if isNewCanvas then (grantAccess db.accesses id userId .owner userId none now).2
    else db.accesses
  (canvasDesign, { db with canvases := canvases1, accesses := accesses1 })

/-- First-occurrence deduplication, the order `Array.from(new Set(xs))`
produces. -/
def dedupFirst : List String → List String
  | [] => []
  | x :: xs => x :: (dedupFirst xs).filter (fun y => y ≠ x)

/-- The deduplicated union of ids `findUserAccessibleCanvases` builds:
explicitly granted canvas ids first, then self-owned canvas ids. -/
def accessibleIds (db : DB) (userId : String) : List String :=
  dedupFirst (getUserCanvases db.accesses userId ++
    (db.canvases.filter (fun c => c.userId == userId)).map (fun c => c.mongoId))

/-- Mongo `sort({'metadata.updatedAt': -1})`. -/
def sortByUpdatedDesc (l : List CanvasDesign) : List CanvasDesign :=
  l.insertionSort (fun a b => b.metadata.updatedAt ≤ a.metadata.updatedAt)

/-- `CanvasDesignModel.findUserAccessibleCanvases(userId, limit, offset)`:
union of granted and owned ids, deduplicated; empty union short-circuits;
otherwise the matching canvases sorted by `metadata.updatedAt` descending
with `skip(offset).limit(limit)`, paired with the total count. -/
def findUserAccessibleCanvases (db : DB) (userId : String)
    (limit offset : Nat) : List CanvasDesign × Nat :=
  let allCanvasIds := accessibleIds db userId
  if allCanvasIds.isEmpty then ([], 0)
  else
    let matching := db.canvases.filter (fun c => allCanvasIds.contains c.mongoId)
    (((sortByUpdatedDesc matching).drop offset).take limit, matching.length)

/-- `CanvasDesignModel.delete(id, userId?)`: `deleteOne` on `_id` (plus the
`userId` filter when supplied and truthy); on success, cascades
`deleteCanvasAccess`.  Comments are not touched. -/
def canvasDelete (db : DB) (id : String) (userId : Option String) :
    Bool × DB :=
  let p : CanvasDesign → Bool :=
    match userId with
    | none => fun c => c.mongoId == id
    | some u =>
      if u = "" then fun c => c.mongoId == id
      else fun c => c.mongoId == id && c.userId == u
  let deleted := db.canvases.any p
  let canvases1 := db.canvases.eraseP p
  if deleted then
    (true, { db with
              canvases := canvases1
              accesses := (deleteCanvasAccess db.accesses id).2 })
  else (false, { db with canvases := canvases1 })

/-- `CanvasDesignModel.createBlank(userId, metadata?)`: inserts a fresh
document with the blank Fabric.js payload and grants owner access to the
creator.  The `randomUUID()` result is passed in as `freshId`. -/
def createBlank (db : DB) (freshId userId : String)
    (metadata : Option PartialMetadata) (now : Nat) : CanvasDesign × DB :=
  let canvasDesign : CanvasDesign :=
    { mongoId := freshId
      userId := userId
      designData :=
        { version := "6.7.1"
          objects := []
          background := "white"
          width := none
          height := none }
      metadata :=
        { version := "1.0"
          createdAt := now
          updatedAt := now
          title := match metadata with | none => none | some m => m.title }
      yjsState := none
      lastSaved := none }
  (canvasDesign,
   { db with
      canvases := db.canvases ++ [canvasDesign]
      accesses := (grantAccess db.accesses freshId userId .owner userId none now).2 })

/-- `CanvasDesignModel.saveYjsState(canvasId, yjsState)`: `updateOne` (no
upsert) setting `yjsState`, `lastSaved` and `metadata.updatedAt`; a no-op
when the canvas does not exist. -/
def saveYjsState (db : DB) (canvasId : String) (yjsState : List Nat)
    (now : Nat) : DB :=
  { db with
     canvases :=
       updateFirst (fun c => c.mongoId == canvasId)
         (fun c =>
           { c with
              yjsState := some yjsState
              lastSaved := some now
              metadata := { c.metadata with updatedAt := now } })
         db.canvases }

/-- `CanvasDesignModel.loadYjsState(canvasId)`: the stored snapshot blob, or
`none` when the canvas is absent or holds no snapshot. -/
def loadYjsState (db : DB) (canvasId : String) : Option (List Nat) :=
  match db.canvases.find? (fun c => c.mongoId == canvasId) with
  | none => none
  | some c => c.yjsState

/-! ## Controllers (`src/controllers/CanvasController.ts`)

The handlers below embed the controller revision that applies the self-heal
rule (grant `owner` to the recorded creator when the access check fails) in
`getCanvas`, `updateCanvas` and `shareCanvas`.  The authenticated `userId`
is taken as given (JWT verification is an external collaborator).  HTTP
outcomes are reduced to their status classification. -/

inductive CtrlStatus
  | badRequest
  | notFound
  | forbidden
  | ok
deriving DecidableEq

/-- `getCanvas`: existence check, then `viewer`-level access check with
self-heal for the recorded creator. -/
def getCanvasCtrl (db : DB) (id userId : String) (now : Nat) :
    CtrlStatus × DB :=
  match findById db.canvases id none with
  | none => (.notFound, db)
  | some canvas =>
    if hasAccess db.accesses id userId .viewer then (.ok, db)
    else if canvas.userId == userId then
      (.ok, { db with
               accesses := (grantAccess db.accesses id userId .owner userId none now).2 })
    else (.forbidden, db)

/-- `updateCanvas`: existence check, `editor`-level access check with
self-heal, then `designData` validation (present, truthy `version`,
array-typed `objects`), then `canvasModel.save` with `metadata || {}`. -/
def updateCanvasCtrl (db : DB) (id userId : String)
    (designData : Option DesignData) (metadata : Option PartialMetadata)
    (now : Nat) : CtrlStatus × DB :=
  match findById db.canvases id none with
  | none => (.notFound, db)
  | some existingCanvas =>
    let ha := hasAccess db.accesses id userId .editor
    let healed := !ha && existingCanvas.userId == userId
    let db1 :=
      if healed then
        { db with
           accesses := (grantAccess db.accesses id userId .owner userId none now).2 }
      else db
    if !(ha || healed) then (.forbidden, db1)
    else
      match designData with
      | none => (.badRequest, db1)
      | some dd =>
        if dd.version = "" then (.badRequest, db1)
        else
          (.ok, (canvasSave db1 id userId dd (metadata.getD emptyPartialMetadata) now).2)

/-- `deleteCanvas`: existence check, then `owner`-level access check (no
self-heal), then `canvasModel.delete(id)`. -/
def deleteCanvasCtrl (db : DB) (id userId : String) : CtrlStatus × DB :=
  match findById db.canvases id none with
  | none => (.notFound, db)
  | some _ =>
    if hasAccess db.accesses id userId .owner then
      (.ok, (canvasDelete db id none).2)
    else (.forbidden, db)

/-- `shareCanvas`: input validation (truthy `canvasId` and `userId`),
existence check, `editor`-level access check with self-heal, then an
`editor` grant for the target user. -/
def shareCanvasCtrl (db : DB) (canvasId targetUserId currentUserId : String)
    (now : Nat) : CtrlStatus × DB :=
  if canvasId = "" || targetUserId = "" then (.badRequest, db)
  else
    match findById db.canvases canvasId none with
    | none => (.notFound, db)
    | some canvas =>
      let ha := hasAccess db.accesses canvasId currentUserId .editor
      let healed := !ha && canvas.userId == currentUserId
      let db1 :=
        if healed then
          { db with
             accesses :=
               (grantAccess db.accesses canvasId currentUserId .owner currentUserId none now).2 }
        else db
      if !(ha || healed) then (.forbidden, db1)
      else
        (.ok, { db1 with
                 accesses :=
                   (grantAccess db1.accesses canvasId targetUserId .editor currentUserId none now).2 })

/-! ## Bulk sharing (`shareCanvasWithMultipleUsers`, later controller
revision without self-heal) -/

/-- Outcome of a bulk-share request: the HTTP classification, the per-target
successes and failures reported in the response body, and the final state. -/
structure ShareMultipleResult where
  status : CtrlStatus
  successes : List (String × Role)
  failures : List String
  db : DB
deriving DecidableEq

/-- The per-target loop of `shareCanvasWithMultipleUsers`: each target is
looked up in the users collection; unknown targets are recorded as failures
and do not abort the rest; known targets receive `grantAccess` with the
requested role. -/
def processShareTargets (users : List String) (canvasId : String)
    (role : Role) (currentUserId : String) (now : Nat) :
    List String → List CanvasAccess →
      List (String × Role) × List String × List CanvasAccess
  | [], accesses => ([], [], accesses)
  | uid :: rest, accesses =>
    if users.contains uid then
      let granted := grantAccess accesses canvasId uid role currentUserId none now
      let tail := processShareTargets users canvasId role currentUserId now rest granted.2
      ((granted.1.userId, granted.1.role) :: tail.1, tail.2.1, tail.2.2)
    else
      let tail := processShareTargets users canvasId role currentUserId now rest accesses
      (tail.1, uid :: tail.2.1, tail.2.2)

/-- `shareCanvasWithMultipleUsers`: input validation (truthy `canvasId`,
non-empty target list; the role is well-typed by construction), existence
check, `editor`-level access check for the acting user (no self-heal, no cap
at the acting user's own role), then the per-target grant loop. -/
def shareMultipleCtrl (db : DB) (canvasId : String) (userIds : List String)
    (role : Role) (currentUserId : String) (now : Nat) : ShareMultipleResult :=
  if canvasId = "" || userIds.isEmpty then
    { status := .badRequest, successes := [], failures := [], db := db }
  else
    match findById db.canvases canvasId none with
    | none => { status := .notFound, successes := [], failures := [], db := db }
    | some _ =>
      if hasAccess db.accesses canvasId currentUserId .editor then
        let out := processShareTargets db.users canvasId role currentUserId now userIds db.accesses
        { status := .ok
          successes := out.1
          failures := out.2.1
          db := { db with accesses := out.2.2 } }
      else { status := .forbidden, successes := [], failures := [], db := db }

/-! ## Lemmas about the collection primitives -/

theorem replaceOneUpsert_cons_pos {p : α → Bool} {x : α} (doc : α)
    (xs : List α) (h : p x = true) :
    replaceOneUpsert p doc (x :: xs) = doc :: xs := by
  simp [replaceOneUpsert, h]

theorem replaceOneUpsert_cons_neg {p : α → Bool} {x : α} (doc : α)
    (xs : List α) (h : p x = false) :
    replaceOneUpsert p doc (x :: xs) = x :: replaceOneUpsert p doc xs := by
  simp [replaceOneUpsert, h]

theorem updateFirst_cons_pos {p : α → Bool} {x : α} (f : α → α)
    (xs : List α) (h : p x = true) :
    updateFirst p f (x :: xs) = f x :: xs := by
  simp [updateFirst, h]

theorem updateFirst_cons_neg {p : α → Bool} {x : α} (f : α → α)
    (xs : List α) (h : p x = false) :
    updateFirst p f (x :: xs) = x :: updateFirst p f xs := by
  simp [updateFirst, h]

theorem mem_replaceOneUpsert_self (p : α → Bool) (doc : α) :
    ∀ l : List α, doc ∈ replaceOneUpsert p doc l := by
  intro l
  induction l with
  | nil => simp [replaceOneUpsert]
  | cons x xs ih =>
    by_cases h : p x = true
    · rw [replaceOneUpsert_cons_pos doc xs h]
      exact List.mem_cons_self _ _
    · rw [replaceOneUpsert_cons_neg doc xs (by simpa using h)]
      exact List.mem_cons_of_mem _ ih

theorem mem_replaceOneUpsert_of_mem (p : α → Bool) (doc x : α)
    (hx : p x = false) :
    ∀ l : List α, x ∈ l → x ∈ replaceOneUpsert p doc l := by
  intro l
  induction l with
  | nil => simp
  | cons y ys ih =>
    intro hmem
    by_cases h : p y = true
    · rw [replaceOneUpsert_cons_pos doc ys h]
      rcases List.mem_cons.mp hmem with rfl | hy
      · rw [hx] at h; exact absurd h (by simp)
      · exact List.mem_cons_of_mem _ hy
    · rw [replaceOneUpsert_cons_neg doc ys (by simpa using h)]
      rcases List.mem_cons.mp hmem with rfl | hy
      · exact List.mem_cons_self _ _
      · exact List.mem_cons_of_mem _ (ih hy)

theorem mem_of_mem_replaceOneUpsert (p : α → Bool) (doc x : α) :
    ∀ l : List α, x ∈ replaceOneUpsert p doc l → x = doc ∨ x ∈ l := by
  intro l
  induction l with
  | nil => simp [replaceOneUpsert]
  | cons y ys ih =>
    intro hmem
    by_cases h : p y = true
    · rw [replaceOneUpsert_cons_pos doc ys h] at hmem
      rcases List.mem_cons.mp hmem with rfl | hy
      · exact Or.inl rfl
      · exact Or.inr (List.mem_cons_of_mem _ hy)
    · rw [replaceOneUpsert_cons_neg doc ys (by simpa using h)] at hmem
      rcases List.mem_cons.mp hmem with rfl | hy
      · exact Or.inr (List.mem_cons_self _ _)
      · rcases ih hy with h1 | h1
        · exact Or.inl h1
        · exact Or.inr (List.mem_cons_of_mem _ h1)

theorem find?_replaceOneUpsert_self (p : α → Bool) (doc : α)
    (hpd : p doc = true) :
    ∀ l : List α, (replaceOneUpsert p doc l).find? p = some doc := by
  intro l
  induction l with
  | nil => simp [replaceOneUpsert, List.find?, hpd]
  | cons x xs ih =>
    by_cases h : p x = true
    · rw [replaceOneUpsert_cons_pos doc xs h, List.find?_cons_of_pos _ hpd]
    · rw [replaceOneUpsert_cons_neg doc xs (by simpa using h),
        List.find?_cons_of_neg _ (by simpa using h), ih]

theorem countP_replaceOneUpsert (p : α → Bool) (doc : α)
    (hpd : p doc = true) :
    ∀ l : List α, l.countP p ≤ 1 → (replaceOneUpsert p doc l).countP p = 1 := by
  intro l
  induction l with
  | nil => simp [replaceOneUpsert, List.countP_cons, hpd]
  | cons x xs ih =>
    intro hle
    by_cases h : p x = true
    · have hxs : xs.countP p = 0 := by
        rw [List.countP_cons_of_pos _ _ h] at hle
        omega
      rw [replaceOneUpsert_cons_pos doc xs h,
        List.countP_cons_of_pos _ _ hpd, hxs]
    · rw [List.countP_cons_of_neg _ _ (by simpa using h)] at hle
      rw [replaceOneUpsert_cons_neg doc xs (by simpa using h),
        List.countP_cons_of_neg _ _ (by simpa using h), ih hle]

theorem filter_replaceOneUpsert (p q : α → Bool) (doc : α)
    (_hpd : p doc = true) (hqd : q doc = true) :
    ∀ l : List α, (∀ x ∈ l, q x = true → p x = true) → l.countP p ≤ 1 →
      (replaceOneUpsert p doc l).filter q = [doc] := by
  intro l
  induction l with
  | nil => simp [replaceOneUpsert, List.filter, hqd]
  | cons x xs ih =>
    intro hqp hle
    by_cases h : p x = true
    · have hxs : xs.countP p = 0 := by
        rw [List.countP_cons_of_pos _ _ h] at hle
        omega
      have hnone : xs.filter q = [] := by
        rw [List.filter_eq_nil_iff]
        intro y hy hqy
        have hpy := hqp y (List.mem_cons_of_mem _ hy) (by simpa using hqy)
        have := List.countP_eq_zero.mp hxs y hy
        exact this hpy
      rw [replaceOneUpsert_cons_pos doc xs h,
        List.filter_cons_of_pos hqd, hnone]
    · have hqx : q x = false := by
        by_contra hq
        exact h (hqp x (List.mem_cons_self _ _) (by simpa using hq))
      rw [List.countP_cons_of_neg _ _ (by simpa using h)] at hle
      rw [replaceOneUpsert_cons_neg doc xs (by simpa using h),
        List.filter_cons_of_neg (by simpa using hqx)]
      exact ih (fun y hy => hqp y (List.mem_cons_of_mem _ hy)) hle

theorem countP_le_one_of_nodup_map {β : Type} [BEq β] [LawfulBEq β]
    (f : α → β) (v : β) :
    ∀ l : List α, (l.map f).Nodup → l.countP (fun x => f x == v) ≤ 1 := by
  intro l
  induction l with
  | nil => simp
  | cons x xs ih =>
    intro hnd
    rw [List.map_cons, List.nodup_cons] at hnd
    by_cases h : f x == v
    · have heq : f x = v := by simpa using h
      have hxs : xs.countP (fun x => f x == v) = 0 := by
        rw [List.countP_eq_zero]
        intro y hy
        simp only [beq_iff_eq]
        intro hfy
        exact hnd.1 (heq ▸ hfy ▸ List.mem_map_of_mem f hy)
      rw [List.countP_cons_of_pos _ _ (by simpa using h), hxs]
    · rw [List.countP_cons_of_neg _ _ (by simpa using h)]
      exact ih hnd.2

theorem find?_updateFirst (p : α → Bool) (f : α → α) (c : α) :
    ∀ l : List α, l.find? p = some c → p (f c) = true →
      (updateFirst p f l).find? p = some (f c) := by
  intro l
  induction l with
  | nil => simp [List.find?]
  | cons x xs ih =>
    intro hfind hpf
    by_cases h : p x = true
    · rw [List.find?_cons_of_pos _ h] at hfind
      injection hfind with hxc
      subst hxc
      rw [updateFirst_cons_pos f xs h, List.find?_cons_of_pos _ hpf]
    · rw [List.find?_cons_of_neg _ (by simpa using h)] at hfind
      rw [updateFirst_cons_neg f xs (by simpa using h),
        List.find?_cons_of_neg _ (by simpa using h)]
      exact ih hfind hpf

theorem find?_filter_none (p q : α → Bool)
    (hpq : ∀ x, q x = true → p x = false) :
    ∀ l : List α, (l.filter q).find? p = none := by
  intro l
  rw [List.find?_eq_none]
  intro x hx
  rw [List.mem_filter] at hx
  simp [hpq x hx.2]

theorem eraseP_all_false (p : α → Bool) :
    ∀ l : List α, l.countP p ≤ 1 → ∀ x ∈ l.eraseP p, p x = false := by
  intro l
  induction l with
  | nil => simp
  | cons y ys ih =>
    intro hle x hx
    by_cases h : p y = true
    · rw [List.eraseP_cons_of_pos h] at hx
      have hys : ys.countP p = 0 := by
        rw [List.countP_cons_of_pos _ _ h] at hle
        omega
      have := List.countP_eq_zero.mp hys x hx
      simpa using this
    · rw [List.eraseP_cons_of_neg (by simpa using h)] at hx
      rw [List.countP_cons_of_neg _ _ (by simpa using h)] at hle
      rcases List.mem_cons.mp hx with rfl | hx2
      · simpa using h
      · exact ih hle x hx2

theorem mem_dedupFirst {x : String} :
    ∀ l : List String, x ∈ dedupFirst l ↔ x ∈ l := by
  intro l
  induction l with
  | nil => simp [dedupFirst]
  | cons y ys ih =>
    simp only [dedupFirst, List.mem_cons, List.mem_filter]
    constructor
    · rintro (rfl | ⟨hmem, _⟩)
      · exact Or.inl rfl
      · exact Or.inr (ih.mp hmem)
    · rintro (rfl | hmem)
      · exact Or.inl rfl
      · by_cases hxy : x = y
        · exact Or.inl hxy
        · exact Or.inr ⟨ih.mpr hmem, by simpa using hxy⟩

theorem nodup_dedupFirst : ∀ l : List String, (dedupFirst l).Nodup := by
  intro l
  induction l with
  | nil => simp [dedupFirst]
  | cons y ys ih =>
    rw [dedupFirst, List.nodup_cons]
    constructor
    · intro hmem
      rw [List.mem_filter] at hmem
      simpa using hmem.2
    · exact ih.filter _

/-! ## Concrete fixtures used by witnesses and counterexamples -/

/-- The blank Fabric.js design payload. -/
def dd6 : DesignData :=
  { version := "6.7.1", objects := [], background := "white",
    width := none, height := none }

def dbEmpty : DB := { canvases := [], accesses := [], comments := [], users := [] }

def mdW : CanvasMetadata :=
  { title := none, version := "1.0", createdAt := 1, updatedAt := 1 }

def canvasW : CanvasDesign :=
  { mongoId := "c1", userId := "u", designData := dd6, metadata := mdW,
    yjsState := none, lastSaved := none }

def ownerGrantW : CanvasAccess :=
  { mongoId := "c1-u", canvasId := "c1", userId := "u", role := .owner,
    grantedBy := "u", grantedAt := 1, expiresAt := none }

def viewerGrantW : CanvasAccess :=
  { mongoId := "c1-v", canvasId := "c1", userId := "v", role := .viewer,
    grantedBy := "u", grantedAt := 1, expiresAt := none }

def edGrantW : CanvasAccess :=
  { mongoId := "c1-e", canvasId := "c1", userId := "e", role := .editor,
    grantedBy := "u", grantedAt := 1, expiresAt := none }

def commentW : Comment :=
  { mongoId := "c1-k", canvasId := "c1", id := "k", authorId := "u",
    timestamp := 3, text := "hi", createdAt := 1, updatedAt := 1 }

def dbW : DB :=
  { canvases := [canvasW], accesses := [ownerGrantW, viewerGrantW],
    comments := [commentW], users := ["u", "v"] }

/-- The grant record the self-heal rule persists. -/
def ownerGrant (canvasId userId : String) (now : Nat) : CanvasAccess :=
  { mongoId := accessId canvasId userId, canvasId := canvasId,
    userId := userId, role := .owner, grantedBy := userId,
    grantedAt := now, expiresAt := none }

/-! ## C2 -/

/-- C2: `hasAccess` follows the total role order owner(3) > editor(2) >
viewer(1): when no grant exists for the `(canvasId, userId)` pair the result
is `false`; with a grant the result is exactly the rank comparison
`roleRank(grant.role) >= roleRank(requiredRole)`; an `owner` grant passes
every required role; a `viewer` grant fails `editor` and `owner`. -/
theorem hasAccess_role_order (accesses : List CanvasAccess)
    (canvasId userId : String) (requiredRole : Role) :
    (findGrant accesses canvasId userId = none →
      hasAccess accesses canvasId userId requiredRole = false) ∧
    (∀ g, findGrant accesses canvasId userId = some g →
      hasAccess accesses canvasId userId requiredRole =
        decide (roleHierarchy requiredRole ≤ roleHierarchy g.role)) ∧
    (∀ g, findGrant accesses canvasId userId = some g → g.role = .owner →
      hasAccess accesses canvasId userId requiredRole = true) ∧
    (∀ g, findGrant accesses canvasId userId = some g → g.role = .viewer →
      hasAccess accesses canvasId userId .editor = false ∧
      hasAccess accesses canvasId userId .owner = false) := by
  refine ⟨fun h => ?_, fun g hg => ?_, fun g hg hrole => ?_, fun g hg hrole => ?_⟩
  · simp [hasAccess, h]
  · simp [hasAccess, hg]
  · cases requiredRole <;> simp [hasAccess, hg, hrole, roleHierarchy]
  · exact ⟨by simp [hasAccess, hg, hrole, roleHierarchy],
      by simp [hasAccess, hg, hrole, roleHierarchy]⟩

theorem hasAccess_role_order_witness :
    hasAccess [viewerGrantW] "c1" "v" Role.editor = false ∧
    hasAccess [viewerGrantW] "c1" "v" Role.owner = false :=
  (hasAccess_role_order [viewerGrantW] "c1" "v" Role.editor).2.2.2
    viewerGrantW (by decide) rfl

/-! ## C5 -/

/-- C5: grants are keyed by the composite `(canvasId, userId)`: starting
from any access collection whose records respect the `_id = canvasId-userId`
key discipline with no duplicate `_id`s, granting twice for the same pair
(any two roles, in any order) leaves exactly one grant record for that pair,
and it holds the latest role — a lower role after a higher one replaces it
rather than being rejected. -/
theorem grantAccess_twice_single_record (accesses : List CanvasAccess)
    (c u gb1 gb2 : String) (r1 r2 : Role) (e1 e2 : Option Nat) (t1 t2 : Nat)
    (hId : ∀ g ∈ accesses, g.mongoId = accessId g.canvasId g.userId)
    (hNodup : (accesses.map (fun g => g.mongoId)).Nodup) :
    ((grantAccess (grantAccess accesses c u r1 gb1 e1 t1).2 c u r2 gb2 e2 t2).2).filter
        (fun g => g.canvasId == c && g.userId == u) =
      [{ mongoId := accessId c u, canvasId := c, userId := u, role := r2,
         grantedBy := gb2, grantedAt := t2, expiresAt := e2 }] := by
  have hqp : ∀ x ∈ accesses, (x.canvasId == c && x.userId == u) = true →
      (x.mongoId == accessId c u) = true := by
    intro x hx hq
    rw [Bool.and_eq_true, beq_iff_eq, beq_iff_eq] at hq
    rw [beq_iff_eq, hId x hx, hq.1, hq.2]
  have hcount : accesses.countP (fun g => g.mongoId == accessId c u) ≤ 1 :=
    countP_le_one_of_nodup_map (fun g => g.mongoId) (accessId c u) accesses hNodup
  have hstep1 := countP_replaceOneUpsert
    (fun g : CanvasAccess => g.mongoId == accessId c u)
    { mongoId := accessId c u, canvasId := c, userId := u, role := r1,
      grantedBy := gb1, grantedAt := t1, expiresAt := e1 }
    (by simp) accesses hcount
  have hqp1 : ∀ x ∈ (grantAccess accesses c u r1 gb1 e1 t1).2,
      (x.canvasId == c && x.userId == u) = true →
      (x.mongoId == accessId c u) = true := by
    intro x hx hq
    rcases mem_of_mem_replaceOneUpsert _ _ x accesses hx with rfl | hx2
    · simp
    · exact hqp x hx2 hq
  exact filter_replaceOneUpsert _ _ _ (by simp) (by simp)
    ((grantAccess accesses c u r1 gb1 e1 t1).2) hqp1 (le_of_eq hstep1)

theorem grantAccess_twice_single_record_witness :
    ((grantAccess (grantAccess [viewerGrantW] "c1" "v" .owner "u" none 5).2
        "c1" "v" .viewer "u" none 6).2).filter
        (fun g => g.canvasId == "c1" && g.userId == "v") =
      [{ mongoId := accessId "c1" "v", canvasId := "c1", userId := "v",
         role := .viewer, grantedBy := "u", grantedAt := 6,
         expiresAt := none }] :=
  grantAccess_twice_single_record [viewerGrantW] "c1" "v" "u" "u"
    .owner .viewer none none 5 6 (by decide) (by decide)

/-! ## C4 -/

/-- C4 counterexample: a canvas is created at time 1 (stored
`createdAt = 1`); a second save at time 2 with no caller-supplied
`createdAt` leaves the stored `createdAt` at 2, not the original 1 — the
existing record's `createdAt` is not preserved. -/
theorem canvasSave_createdAt_not_preserved :
    (findById ((canvasSave (canvasSave dbEmpty "c1" "u" dd6
          emptyPartialMetadata 1).2 "c1" "u" dd6
          emptyPartialMetadata 2).2).canvases "c1" none).map
        (fun c => c.metadata.createdAt) = some 2 ∧
    (findById ((canvasSave (canvasSave dbEmpty "c1" "u" dd6
          emptyPartialMetadata 1).2 "c1" "u" dd6
          emptyPartialMetadata 2).2).canvases "c1" none).map
        (fun c => c.metadata.createdAt) ≠ some 1 := by
  constructor
  · rfl
  · decide

/-- C4 amended: on every save the stored `metadata.updatedAt` is refreshed
to now, and the stored `metadata.createdAt` is the caller-supplied value
when one is given and otherwise is also set to now — the replacement
document never reads the existing record, so an update without a
caller-supplied `createdAt` overwrites the original creation time. -/
theorem canvasSave_metadata_timestamps (db : DB) (id userId : String)
    (dd : DesignData) (pm : PartialMetadata) (now : Nat) :
    ((canvasSave db id userId dd pm now).1).metadata.updatedAt = now ∧
    ((canvasSave db id userId dd pm now).1).metadata.createdAt =
      pm.createdAt.getD now ∧
    findById ((canvasSave db id userId dd pm now).2).canvases id none =
      some (canvasSave db id userId dd pm now).1 := by
  refine ⟨rfl, rfl, ?_⟩
  simp only [canvasSave, findById]
  exact find?_replaceOneUpsert_self _ _ (by simp) _

/-! ## C7 -/

/-- C7 counterexample: for a canvas id with no stored canvas,
`saveYjsState` (an `updateOne` without upsert) is a no-op, so the
save-then-load round trip returns `none` instead of the saved blob. -/
theorem yjsRoundTrip_fails_for_absent_canvas :
    loadYjsState (saveYjsState dbEmpty "c1" [1, 2] 5) "c1" = none ∧
    loadYjsState (saveYjsState dbEmpty "c1" [1, 2] 5) "c1" ≠ some [1, 2] := by
  constructor
  · rfl
  · decide

/-- C7 amended: for every canvas that exists in the store, `saveYjsState`
followed by `loadYjsState` returns the byte-identical blob, and the stored
record afterwards holds the new snapshot, the new snapshot timestamp, and a
refreshed `metadata.updatedAt`. -/
theorem yjsRoundTrip_existing (db : DB) (id : String) (blob : List Nat)
    (now : Nat) (c : CanvasDesign)
    (hfind : db.canvases.find? (fun x => x.mongoId == id) = some c) :
    loadYjsState (saveYjsState db id blob now) id = some blob ∧
    ∃ c1, (saveYjsState db id blob now).canvases.find?
        (fun x => x.mongoId == id) = some c1 ∧
      c1.yjsState = some blob ∧ c1.lastSaved = some now ∧
      c1.metadata.updatedAt = now := by
  have hp : (c.mongoId == id) = true := by
    have := List.find?_some hfind
    simpa using this
  have hstep := find?_updateFirst (fun x : CanvasDesign => x.mongoId == id)
    (fun x =>
      { x with
         yjsState := some blob
         lastSaved := some now
         metadata := { x.metadata with updatedAt := now } })
    c db.canvases hfind (by simpa using hp)
  refine ⟨?_, ⟨_, hstep, rfl, rfl, rfl⟩⟩
  simp only [loadYjsState, saveYjsState, hstep]

theorem yjsRoundTrip_existing_witness :
    loadYjsState (saveYjsState dbW "c1" [7, 8] 5) "c1" = some [7, 8] :=
  (yjsRoundTrip_existing dbW "c1" [7, 8] 5 canvasW (by decide)).1

/-! ## C9 -/

/-- C9 counterexample: a comment saved at time 1 stores `createdAt = 1`;
re-submitting the same `(canvasId, clientCommentId)` key at time 2 replaces
the whole document, so the stored `createdAt` becomes 2 — the originally
stored `createdAt` is not preserved. -/
theorem saveComment_createdAt_overwritten :
    ((saveComment [] "c1"
        { id := "k", authorId := "u", timestamp := 3, text := "one" } 1).2).map
        (fun x => x.createdAt) = [1] ∧
    ((saveComment (saveComment [] "c1"
        { id := "k", authorId := "u", timestamp := 3, text := "one" } 1).2 "c1"
        { id := "k", authorId := "u", timestamp := 3, text := "two" } 2).2).map
        (fun x => x.createdAt) = [2] ∧
    ([2] : List Nat) ≠ [1] := by
  refine ⟨rfl, rfl, by decide⟩

/-- C9 amended: comment upsert is keyed by `(canvasId, clientCommentId)`:
re-submitting with the same key leaves exactly one comment record for that
key (no duplicates), holding the latest submission's `text` — but with
`createdAt` and `updatedAt` both reset to the latest save time, since the
replacement document overwrites `createdAt` as well. -/
theorem saveComment_upsert_overwrites_all (comments : List Comment)
    (canvasId : String) (c1 c2 : CommentInput) (t1 t2 : Nat)
    (hkey : c1.id = c2.id)
    (hId : ∀ x ∈ comments, x.mongoId = x.canvasId ++ "-" ++ x.id)
    (hNodup : (comments.map (fun x => x.mongoId)).Nodup) :
    ((saveComment (saveComment comments canvasId c1 t1).2 canvasId c2 t2).2).filter
        (fun x => x.canvasId == canvasId && x.id == c2.id) =
      [{ mongoId := canvasId ++ "-" ++ c2.id, canvasId := canvasId,
         id := c2.id, authorId := c2.authorId, timestamp := c2.timestamp,
         text := c2.text, createdAt := t2, updatedAt := t2 }] := by
  have hqp : ∀ x ∈ comments, (x.canvasId == canvasId && x.id == c2.id) = true →
      (x.mongoId == canvasId ++ "-" ++ c2.id) = true := by
    intro x hx hq
    rw [Bool.and_eq_true, beq_iff_eq, beq_iff_eq] at hq
    rw [beq_iff_eq, hId x hx, hq.1, hq.2]
  have hcount : comments.countP (fun x => x.mongoId == canvasId ++ "-" ++ c2.id) ≤ 1 :=
    countP_le_one_of_nodup_map (fun x => x.mongoId) _ comments hNodup
  simp only [saveComment]
  rw [hkey]
  have hstep1 := countP_replaceOneUpsert
    (fun x : Comment => x.mongoId == canvasId ++ "-" ++ c2.id)
    { mongoId := canvasId ++ "-" ++ c2.id, canvasId := canvasId, id := c2.id,
      authorId := c1.authorId, timestamp := c1.timestamp, text := c1.text,
      createdAt := t1, updatedAt := t1 }
    (by simp) comments hcount
  have hqp1 : ∀ x ∈ replaceOneUpsert
        (fun x : Comment => x.mongoId == canvasId ++ "-" ++ c2.id)
        { mongoId := canvasId ++ "-" ++ c2.id, canvasId := canvasId,
          id := c2.id, authorId := c1.authorId, timestamp := c1.timestamp,
          text := c1.text, createdAt := t1, updatedAt := t1 } comments,
      (x.canvasId == canvasId && x.id == c2.id) = true →
      (x.mongoId == canvasId ++ "-" ++ c2.id) = true := by
    intro x hx hq
    rcases mem_of_mem_replaceOneUpsert _ _ x comments hx with rfl | hx2
    · simp
    · exact hqp x hx2 hq
  exact filter_replaceOneUpsert _ _ _ (by simp) (by simp)
    _ hqp1 (le_of_eq hstep1)

theorem saveComment_upsert_overwrites_all_witness :
    ((saveComment (saveComment [] "c1"
        { id := "k", authorId := "u", timestamp := 3, text := "one" } 1).2 "c1"
        { id := "k", authorId := "u", timestamp := 3, text := "two" } 2).2).filter
        (fun x => x.canvasId == "c1" && x.id == "k") =
      [{ mongoId := "c1" ++ "-" ++ "k", canvasId := "c1", id := "k",
         authorId := "u", timestamp := 3, text := "two", createdAt := 2,
         updatedAt := 2 }] :=
  saveComment_upsert_overwrites_all []  "c1"
    { id := "k", authorId := "u", timestamp := 3, text := "one" }
    { id := "k", authorId := "u", timestamp := 3, text := "two" }
    1 2 rfl (by decide) (by decide)

/-! ## C3 -/

/-- C3 counterexample: a canvas with one comment is deleted successfully,
yet its comment is still present afterwards — canvas deletion cascades to
grants but never to comments (`deleteCommentsByCanvasId` has no caller in
the delete path). -/
theorem canvasDelete_leaves_comments :
    (canvasDelete dbW "c1" none).1 = true ∧
    (canvasDelete dbW "c1" none).2.comments = [commentW] := by
  constructor
  · rfl
  · rfl

/-- C3 amended: a successful delete removes the canvas record and all of
its access grants — afterwards `hasAccess` on that id is `false` for every
user and role because the grant records are absent — but the canvas's
comments are left untouched. -/
theorem canvasDelete_cascades_grants_not_comments (db : DB) (id : String)
    (hexists : db.canvases.any (fun c => c.mongoId == id) = true)
    (hNodup : (db.canvases.map (fun c => c.mongoId)).Nodup) :
    (canvasDelete db id none).1 = true ∧
    (∀ c ∈ (canvasDelete db id none).2.canvases, ¬ c.mongoId = id) ∧
    (∀ g ∈ (canvasDelete db id none).2.accesses, ¬ g.canvasId = id) ∧
    (∀ u r, hasAccess (canvasDelete db id none).2.accesses id u r = false) ∧
    (canvasDelete db id none).2.comments = db.comments := by
  have hres : canvasDelete db id none =
      (true, { db with
                canvases := db.canvases.eraseP (fun c => c.mongoId == id)
                accesses := (deleteCanvasAccess db.accesses id).2 }) := by
    simp [canvasDelete, hexists]
  rw [hres]
  refine ⟨rfl, ?_, ?_, ?_, rfl⟩
  · intro c hc
    have hcount : db.canvases.countP (fun c => c.mongoId == id) ≤ 1 :=
      countP_le_one_of_nodup_map (fun c => c.mongoId) id db.canvases hNodup
    have := eraseP_all_false _ db.canvases hcount c hc
    simpa using this
  · intro g hg
    have := (List.mem_filter.mp hg).2
    simpa using this
  · intro u r
    have hnone : findGrant (deleteCanvasAccess db.accesses id).2 id u = none := by
      refine find?_filter_none _ _ ?_ db.accesses
      intro x hq
      rw [Bool.not_eq_eq_eq_not, Bool.not_true] at hq
      simp [hq]
    simp [hasAccess, hnone]

theorem canvasDelete_cascades_witness :
    (canvasDelete dbW "c1" none).1 = true ∧
    (∀ u r, hasAccess (canvasDelete dbW "c1" none).2.accesses "c1" u r = false) :=
  ⟨(canvasDelete_cascades_grants_not_comments dbW "c1" (by decide) (by decide)).1,
   (canvasDelete_cascades_grants_not_comments dbW "c1" (by decide) (by decide)).2.2.2.1⟩

theorem accessId_inj_right {c u v : String} (h : accessId c u = accessId c v) :
    u = v := by
  have hd := congrArg String.data h
  simp [accessId, String.data_append] at hd
  exact String.ext hd

/-! ## C1 -/

/-- C1: self-heal — for a canvas whose recorded creator is `U` and that has
zero grant records, each access-checked operation for caller `U`
(viewer-level read, editor-level update, editor-level share) succeeds and
leaves the persisted grant `(canvasId, U, owner)` in the access store. -/
theorem selfHeal_grants_owner (db : DB) (id U : String)
    (canvas : CanvasDesign) (now : Nat)
    (hfind : findById db.canvases id none = some canvas)
    (howner : canvas.userId = U)
    (hnogrant : ∀ g ∈ db.accesses, g.canvasId ≠ id)
    (hid : id ≠ "") :
    ((getCanvasCtrl db id U now).1 = .ok ∧
      ownerGrant id U now ∈ (getCanvasCtrl db id U now).2.accesses) ∧
    (∀ dd : DesignData, dd.version ≠ "" → ∀ pm,
      (updateCanvasCtrl db id U (some dd) pm now).1 = .ok ∧
      ownerGrant id U now ∈ (updateCanvasCtrl db id U (some dd) pm now).2.accesses) ∧
    (∀ target, target ≠ "" → target ≠ U →
      (shareCanvasCtrl db id target U now).1 = .ok ∧
      ownerGrant id U now ∈ (shareCanvasCtrl db id target U now).2.accesses) := by
  have hnoacc : ∀ u r, hasAccess db.accesses id u r = false := by
    intro u r
    have hnone : findGrant db.accesses id u = none := by
      rw [findGrant, List.find?_eq_none]
      intro g hg
      simp [hnogrant g hg]
    simp [hasAccess, hnone]
  have hbeq : (canvas.userId == U) = true := by simp [howner]
  have hmem : ownerGrant id U now ∈
      (grantAccess db.accesses id U .owner U none now).2 :=
    mem_replaceOneUpsert_self _ _ _
  refine ⟨?_, ?_, ?_⟩
  · have hget : getCanvasCtrl db id U now =
        (.ok, { db with accesses := (grantAccess db.accesses id U .owner U none now).2 }) := by
      simp [getCanvasCtrl, hfind, hnoacc, hbeq]
    rw [hget]
    exact ⟨rfl, hmem⟩
  · intro dd hdd pm
    have hsave : ((canvasSave
        { db with accesses := (grantAccess db.accesses id U .owner U none now).2 }
        id U dd (pm.getD emptyPartialMetadata) now).2).accesses =
        (grantAccess db.accesses id U .owner U none now).2 := by
      have hfind2 : db.canvases.find? (fun c => c.mongoId == id) = some canvas := hfind
      simp [canvasSave, hfind2]
    have hupd : updateCanvasCtrl db id U (some dd) pm now =
        (.ok, (canvasSave
          { db with accesses := (grantAccess db.accesses id U .owner U none now).2 }
          id U dd (pm.getD emptyPartialMetadata) now).2) := by
      simp [updateCanvasCtrl, hfind, hnoacc, hbeq, hdd]
    rw [hupd]
    exact ⟨rfl, by rw [hsave]; exact hmem⟩
  · intro target htne htu
    have hvalid : (decide (id = "") || decide (target = "")) = false := by
      simp [hid, htne]
    have hshare : shareCanvasCtrl db id target U now =
        (.ok, { db with accesses :=
          (grantAccess (grantAccess db.accesses id U .owner U none now).2
            id target .editor U none now).2 }) := by
      simp [shareCanvasCtrl, hid, htne, hfind, hnoacc, hbeq]
    rw [hshare]
    refine ⟨rfl, ?_⟩
    refine mem_replaceOneUpsert_of_mem _ _ _ ?_ _ hmem
    show (accessId id U == accessId id target) = false
    rw [beq_eq_false_iff_ne]
    intro hcontra
    exact htu (accessId_inj_right hcontra).symm

theorem selfHeal_grants_owner_witness :
    ((getCanvasCtrl { dbW with accesses := [] } "c1" "u" 9).1 = .ok ∧
      ownerGrant "c1" "u" 9 ∈
        (getCanvasCtrl { dbW with accesses := [] } "c1" "u" 9).2.accesses) ∧
    ((shareCanvasCtrl { dbW with accesses := [] } "c1" "v" "u" 9).1 = .ok ∧
      ownerGrant "c1" "u" 9 ∈
        (shareCanvasCtrl { dbW with accesses := [] } "c1" "v" "u" 9).2.accesses) :=
  ⟨(selfHeal_grants_owner { dbW with accesses := [] } "c1" "u" canvasW 9
      (by decide) rfl (by decide) (by decide)).1,
   (selfHeal_grants_owner { dbW with accesses := [] } "c1" "u" canvasW 9
      (by decide) rfl (by decide) (by decide)).2.2 "v" (by decide) (by decide)⟩

/-! ## C8 -/

/-- C8: every operation requiring both existence and authorization (read,
update, delete, share) checks existence first: a nonexistent canvas id
yields NotFound whatever the access store holds — no grant lookup decides
the outcome — while an existing canvas with a caller who lacks the required
role and is not the recorded creator (so self-heal does not apply) yields
Forbidden. -/
theorem notFound_before_forbidden (db : DB) (id U target : String)
    (now : Nat) (hid : id ≠ "") (htarget : target ≠ "") :
    (findById db.canvases id none = none →
      (getCanvasCtrl db id U now).1 = .notFound ∧
      (∀ dd pm, (updateCanvasCtrl db id U dd pm now).1 = .notFound) ∧
      (deleteCanvasCtrl db id U).1 = .notFound ∧
      (shareCanvasCtrl db id target U now).1 = .notFound) ∧
    (∀ canvas, findById db.canvases id none = some canvas →
      canvas.userId ≠ U →
      (hasAccess db.accesses id U .viewer = false →
        (getCanvasCtrl db id U now).1 = .forbidden) ∧
      (hasAccess db.accesses id U .editor = false →
        ∀ dd pm, (updateCanvasCtrl db id U dd pm now).1 = .forbidden) ∧
      (hasAccess db.accesses id U .owner = false →
        (deleteCanvasCtrl db id U).1 = .forbidden) ∧
      (hasAccess db.accesses id U .editor = false →
        (shareCanvasCtrl db id target U now).1 = .forbidden)) := by
  constructor
  · intro hnone
    refine ⟨?_, ?_, ?_, ?_⟩
    · simp [getCanvasCtrl, hnone]
    · intro dd pm
      simp [updateCanvasCtrl, hnone]
    · simp [deleteCanvasCtrl, hnone]
    · simp [shareCanvasCtrl, hid, htarget, hnone]
  · intro canvas hfind hne
    have hbeq : (canvas.userId == U) = false := by
      rw [beq_eq_false_iff_ne]
      exact hne
    refine ⟨?_, ?_, ?_, ?_⟩
    · intro hv
      simp [getCanvasCtrl, hfind, hv, hbeq]
    · intro he dd pm
      simp [updateCanvasCtrl, hfind, he, hbeq]
    · intro ho
      simp [deleteCanvasCtrl, hfind, ho]
    · intro he
      simp [shareCanvasCtrl, hid, htarget, hfind, he, hbeq]

theorem notFound_before_forbidden_witness :
    (getCanvasCtrl dbEmpty "c1" "u" 0).1 = .notFound ∧
    (deleteCanvasCtrl dbW "c1" "v").1 = .forbidden :=
  ⟨(notFound_before_forbidden dbEmpty "c1" "u" "v" 0 (by decide)
      (by decide)).1 (by decide) |>.1,
   ((notFound_before_forbidden dbW "c1" "v" "w" 0 (by decide)
      (by decide)).2 canvasW (by decide) (by decide)).2.2.1 (by decide)⟩

/-! ## C10 -/

/-- C10: bulk sharing never bounds the granted role by the acting user's
own role — an acting user holding only an `editor` grant on an existing
canvas can bulk-share any role (including `owner`) to any existing target
user: the request succeeds, the target is reported granted, and the grant
`(canvasId, target, role)` is persisted. -/
theorem shareMultiple_editor_can_grant_any (db : DB)
    (canvasId actingUser target : String) (r : Role) (now : Nat)
    (canvas : CanvasDesign) (g : CanvasAccess)
    (hfind : findById db.canvases canvasId none = some canvas)
    (hgrant : findGrant db.accesses canvasId actingUser = some g)
    (hrole : g.role = .editor)
    (htarget : target ∈ db.users)
    (hcid : canvasId ≠ "") :
    (shareMultipleCtrl db canvasId [target] r actingUser now).status = .ok ∧
    (shareMultipleCtrl db canvasId [target] r actingUser now).successes =
      [(target, r)] ∧
    (shareMultipleCtrl db canvasId [target] r actingUser now).failures = [] ∧
    { mongoId := accessId canvasId target, canvasId := canvasId,
      userId := target, role := r, grantedBy := actingUser,
      grantedAt := now, expiresAt := none } ∈
      (shareMultipleCtrl db canvasId [target] r actingUser now).db.accesses := by
  have hacc : hasAccess db.accesses canvasId actingUser .editor = true := by
    simp [hasAccess, hgrant, hrole, roleHierarchy]
  have hc : db.users.contains target = true := List.elem_iff.mpr htarget
  have hloop : processShareTargets db.users canvasId r actingUser now
      [target] db.accesses =
      ([(target, r)], [],
        (grantAccess db.accesses canvasId target r actingUser none now).2) := by
    simp [processShareTargets, hc, htarget, grantAccess]
  have hres : shareMultipleCtrl db canvasId [target] r actingUser now =
      { status := .ok
        successes := [(target, r)]
        failures := []
        db := { db with
          accesses := (grantAccess db.accesses canvasId target r actingUser none now).2 } } := by
    simp [shareMultipleCtrl, hcid, hfind, hacc, hloop]
  rw [hres]
  exact ⟨rfl, rfl, rfl, mem_replaceOneUpsert_self _ _ _⟩

theorem shareMultiple_editor_can_grant_any_witness :
    (shareMultipleCtrl { dbW with accesses := [viewerGrantW, edGrantW] }
      "c1" ["v"] .owner "e" 7).status = .ok ∧
    (shareMultipleCtrl { dbW with accesses := [viewerGrantW, edGrantW] }
      "c1" ["v"] .owner "e" 7).successes = [("v", .owner)] ∧
    (shareMultipleCtrl { dbW with accesses := [viewerGrantW, edGrantW] }
      "c1" ["v"] .owner "e" 7).failures = [] ∧
    { mongoId := accessId "c1" "v", canvasId := "c1", userId := "v",
      role := .owner, grantedBy := "e", grantedAt := 7,
      expiresAt := none } ∈
      (shareMultipleCtrl { dbW with accesses := [viewerGrantW, edGrantW] }
        "c1" ["v"] .owner "e" 7).db.accesses :=
  shareMultiple_editor_can_grant_any
    { dbW with accesses := [viewerGrantW, edGrantW] }
    "c1" "e" "v" .owner 7 canvasW edGrantW
    (by decide) (by decide) rfl (by decide) (by decide)

/-! ## C6 -/

theorem mem_accessibleIds (db : DB) (U s : String) :
    s ∈ accessibleIds db U ↔
      ((∃ g ∈ db.accesses, g.userId = U ∧ g.canvasId = s) ∨
        (∃ c ∈ db.canvases, c.userId = U ∧ c.mongoId = s)) := by
  simp only [accessibleIds, mem_dedupFirst, List.mem_append, getUserCanvases,
    List.mem_map, List.mem_filter, beq_iff_eq]
  constructor
  · rintro (⟨g, ⟨hg, hgu⟩, rfl⟩ | ⟨c, ⟨hc, hcu⟩, rfl⟩)
    · exact Or.inl ⟨g, hg, hgu, rfl⟩
    · exact Or.inr ⟨c, hc, hcu, rfl⟩
  · rintro (⟨g, hg, hgu, rfl⟩ | ⟨c, hc, hcu, rfl⟩)
    · exact Or.inl ⟨g, ⟨hg, hgu⟩, rfl⟩
    · exact Or.inr ⟨c, ⟨hc, hcu⟩, rfl⟩

/-- C6: for every user `U`, the accessible-canvas listing (with
`offset = 0` and a `limit` large enough to hold it) returns exactly the
deduplicated union of the canvases explicitly granted to `U` and the
canvases whose recorded creator is `U`: a canvas is listed iff it exists
and is granted-or-owned, the listed id set equals the union of granted and
owned ids, and no id appears twice (a canvas in both categories appears
exactly once). -/
theorem listing_is_deduped_union (db : DB) (U : String) (limit : Nat)
    (hNodupIds : (db.canvases.map (fun c => c.mongoId)).Nodup)
    (hNoDangling : ∀ g ∈ db.accesses, g.userId = U →
      ∃ c ∈ db.canvases, c.mongoId = g.canvasId)
    (hLimit : (db.canvases.filter
        (fun c => (accessibleIds db U).contains c.mongoId)).length ≤ limit) :
    (∀ c, c ∈ (findUserAccessibleCanvases db U limit 0).1 ↔
      (c ∈ db.canvases ∧
        ((∃ g ∈ db.accesses, g.userId = U ∧ g.canvasId = c.mongoId) ∨
          c.userId = U))) ∧
    (∀ s, s ∈ ((findUserAccessibleCanvases db U limit 0).1.map
        (fun c => c.mongoId)) ↔
      ((∃ g ∈ db.accesses, g.userId = U ∧ g.canvasId = s) ∨
        (∃ c ∈ db.canvases, c.userId = U ∧ c.mongoId = s))) ∧
    ((findUserAccessibleCanvases db U limit 0).1.map
        (fun c => c.mongoId)).Nodup := by
  have hinj : ∀ a ∈ db.canvases, ∀ b ∈ db.canvases,
      a.mongoId = b.mongoId → a = b :=
    List.inj_on_of_nodup_map hNodupIds
  by_cases hE : (accessibleIds db U).isEmpty = true
  · have hids : accessibleIds db U = [] := by
      simpa using hE
    have hres : (findUserAccessibleCanvases db U limit 0).1 = [] := by
      simp [findUserAccessibleCanvases, hE]
    rw [hres]
    refine ⟨fun c => ?_, fun s => ?_, by simp⟩
    · simp only [List.not_mem_nil, false_iff]
      rintro ⟨hc, hg | hu⟩
      · rcases hg with ⟨g, hgmem, hgu, hgc⟩
        have : c.mongoId ∈ accessibleIds db U :=
          (mem_accessibleIds db U c.mongoId).mpr (Or.inl ⟨g, hgmem, hgu, hgc⟩)
        rw [hids] at this
        exact List.not_mem_nil _ this
      · have : c.mongoId ∈ accessibleIds db U :=
          (mem_accessibleIds db U c.mongoId).mpr (Or.inr ⟨c, hc, hu, rfl⟩)
        rw [hids] at this
        exact List.not_mem_nil _ this
    · simp only [List.map_nil, List.not_mem_nil, false_iff]
      rintro (hg | ho)
      · have : s ∈ accessibleIds db U :=
          (mem_accessibleIds db U s).mpr (Or.inl hg)
        rw [hids] at this
        exact List.not_mem_nil _ this
      · have : s ∈ accessibleIds db U :=
          (mem_accessibleIds db U s).mpr (Or.inr ho)
        rw [hids] at this
        exact List.not_mem_nil _ this
  · have hperm : List.Perm
        (sortByUpdatedDesc (db.canvases.filter
          (fun c => (accessibleIds db U).contains c.mongoId)))
        (db.canvases.filter (fun c => (accessibleIds db U).contains c.mongoId)) :=
      List.perm_insertionSort _ _
    have htake : (sortByUpdatedDesc (db.canvases.filter
        (fun c => (accessibleIds db U).contains c.mongoId))).take limit =
        sortByUpdatedDesc (db.canvases.filter
          (fun c => (accessibleIds db U).contains c.mongoId)) := by
      apply List.take_of_length_le
      rw [hperm.length_eq]
      exact hLimit
    have hdata : (findUserAccessibleCanvases db U limit 0).1 =
        sortByUpdatedDesc (db.canvases.filter
          (fun c => (accessibleIds db U).contains c.mongoId)) := by
      simp only [findUserAccessibleCanvases, hE, Bool.false_eq_true,
        if_false, List.drop_zero]
      exact htake
    have hmemfilter : ∀ c : CanvasDesign,
        c ∈ db.canvases.filter (fun c => (accessibleIds db U).contains c.mongoId) ↔
          c ∈ db.canvases ∧ c.mongoId ∈ accessibleIds db U := by
      intro c
      rw [List.mem_filter]
      constructor
      · rintro ⟨h1, h2⟩
        exact ⟨h1, List.elem_iff.mp h2⟩
      · rintro ⟨h1, h2⟩
        exact ⟨h1, List.elem_iff.mpr h2⟩
    rw [hdata]
    refine ⟨fun c => ?_, fun s => ?_, ?_⟩
    · rw [hperm.mem_iff, hmemfilter, mem_accessibleIds]
      constructor
      · rintro ⟨hc, hg | ⟨c2, hc2, hc2u, hc2id⟩⟩
        · exact ⟨hc, Or.inl hg⟩
        · exact ⟨hc, Or.inr (by rw [← hinj c2 hc2 c hc hc2id]; exact hc2u)⟩
      · rintro ⟨hc, hg | hu⟩
        · exact ⟨hc, Or.inl hg⟩
        · exact ⟨hc, Or.inr ⟨c, hc, hu, rfl⟩⟩
    · rw [List.mem_map]
      constructor
      · rintro ⟨c, hc, rfl⟩
        rw [hperm.mem_iff, hmemfilter, mem_accessibleIds] at hc
        exact hc.2
      · rintro (⟨g, hgmem, hgu, hgc⟩ | ⟨c, hc, hcu, hcid⟩)
        · rcases hNoDangling g hgmem hgu with ⟨c, hc, hcid⟩
          refine ⟨c, ?_, by rw [hcid, hgc]⟩
          rw [hperm.mem_iff, hmemfilter, mem_accessibleIds]
          exact ⟨hc, Or.inl ⟨g, hgmem, hgu, hcid.symm⟩⟩
        · refine ⟨c, ?_, hcid⟩
          rw [hperm.mem_iff, hmemfilter, mem_accessibleIds]
          exact ⟨hc, Or.inr ⟨c, hc, hcu, rfl⟩⟩
    · have hsub : List.Sublist
          ((db.canvases.filter
            (fun c => (accessibleIds db U).contains c.mongoId)).map
            (fun c => c.mongoId))
          (db.canvases.map (fun c => c.mongoId)) :=
        (List.filter_sublist _).map _
      have hnd : ((db.canvases.filter
          (fun c => (accessibleIds db U).contains c.mongoId)).map
          (fun c => c.mongoId)).Nodup :=
        hNodupIds.sublist hsub
      exact ((hperm.map (fun c => c.mongoId)).nodup_iff).mpr hnd

theorem listing_is_deduped_union_witness :
    (canvasW ∈ (findUserAccessibleCanvases dbW "u" 50 0).1) ∧
    ((findUserAccessibleCanvases dbW "u" 50 0).1.map
        (fun c => c.mongoId)).Nodup :=
  ⟨((listing_is_deduped_union dbW "u" 50 (by decide) (by decide)
      (by decide)).1 canvasW).mpr ⟨by decide, Or.inr rfl⟩,
   (listing_is_deduped_union dbW "u" 50 (by decide) (by decide)
      (by decide)).2.2⟩

end EditorBackend
